import Mathlib

/-!
Verification of the autocache cache-annotation planner.

This file shallowly embeds the Go source of the autocache proxy:
the request data model and its custom JSON (de)serialization
(`internal/types/models.go`), the pricing table and ROI calculator
(`internal/pricing/pricing.go`), the tokenizer minimum-token backends
(`internal/tokenizer/*.go`), and the cache-injection planner
(`internal/cache/injector.go`).

Modelling conventions:
* Go `float64` values are embedded as `ℚ` (all arithmetic used by the
  planner is +, −, ×, ÷, ceil, floor and comparisons on small decimal
  constants, which ℚ models exactly up to float rounding that none of
  the proved properties depend on).
* Go `int` token counts are embedded as `Nat`; signed intermediate
  quantities use `Int`.
* Go strings are UTF-8 byte strings; they are embedded as Lean `String`
  with an explicit byte-length function (`goUTF8Len`) where the Go code
  uses `len`, and character lists where it iterates over runes.  Byte
  level substring search of valid UTF-8 needles in valid UTF-8 haystacks
  coincides with character-level search, which is how it is embedded.
* Go map iteration order is nondeterministic; functions that range over
  the pricing map take the iteration order as an explicit list argument.
* Wall-clock timestamps carried by breakpoints and metadata are omitted.
* The tokenizer is an interface in the source; the planner is embedded
  parametrically over a `Tokenizer` record of counting functions.
-/

/-- JSON values, the wire format both serializers target.  Numbers are
rationals (Go decodes them to `float64`). -/
inductive Json where
  | null : Json
  | bool (b : Bool) : Json
  | num (q : ℚ) : Json
  | str (s : String) : Json
  | arr (elems : List Json) : Json
  | obj (fields : List (String × Json)) : Json

/-- CacheControl from models.go: the `{"type": "ephemeral", "ttl": ...}` mark. -/
structure CacheControl where
  «Type» : String
  TTL : String

/-- ImageSource from models.go. -/
structure ImageSource where
  «Type» : String
  MediaType : String
  Data : String

/-- ContentBlock from models.go.  The `interface{}` payloads `Input` and
`Content` are embedded as optional JSON values (their decoded form). -/
structure ContentBlock where
  «Type» : String
  Text : String
  Source : Option ImageSource
  CacheControl : Option CacheControl
  ID : String
  Name : String
  Input : Option Json
  ToolUseID : String
  Content : Option Json
  IsError : Option Bool

/-- Message from models.go (content is always a block array in memory). -/
structure Message where
  Role : String
  Content : List ContentBlock

/-- ToolDefinition from models.go. -/
structure ToolDefinition where
  Name : String
  Description : String
  InputSchema : Option Json
  CacheControl : Option CacheControl

/-- AnthropicRequest from models.go.  `System` and `SystemBlocks` mirror the
two arms of the polymorphic `system` field. -/
structure AnthropicRequest where
  Model : String
  MaxTokens : Int
  Messages : List Message
  System : String
  SystemBlocks : List ContentBlock
  Tools : List ToolDefinition
  Temperature : Option ℚ
  TopP : Option ℚ
  TopK : Option Int
  Stream : Option Bool
  StopSequences : List String

/-- CacheBreakpoint from models.go (wall-clock `Timestamp` omitted). -/
structure CacheBreakpoint where
  Position : String
  Tokens : Nat
  TTL : String
  «Type» : String
  WritePrice : ℚ
  ReadSavings : ℚ
deriving DecidableEq

/-- ROIMetrics from models.go. -/
structure ROIMetrics where
  BaseInputCost : ℚ
  CacheWriteCost : ℚ
  CacheReadCost : ℚ
  FirstRequestCost : ℚ
  SubsequentSavings : ℚ
  BreakEvenRequests : Int
  SavingsAt10Requests : ℚ
  SavingsAt100Requests : ℚ
  PercentSavings : ℚ
deriving DecidableEq

/-- CacheMetadata from models.go (wall-clock `Timestamp` omitted). -/
structure CacheMetadata where
  CacheInjected : Bool
  TotalTokens : Nat
  CachedTokens : Nat
  CacheRatio : ℚ
  Breakpoints : List CacheBreakpoint
  ROI : ROIMetrics
  Strategy : String
  Model : String

/-- The three cache strategies declared in models.go. -/
inductive CacheStrategy where
  | conservative : CacheStrategy
  | moderate : CacheStrategy
  | aggressive : CacheStrategy
deriving DecidableEq

/-- The Go string value of a strategy constant. -/
def CacheStrategy.toGoString : CacheStrategy → String
  | .conservative => "conservative"
  | .moderate => "moderate"
  | .aggressive => "aggressive"

/-- StrategyConfig from models.go. -/
structure StrategyConfig where
  MaxBreakpoints : Nat
  MinTokensMultiplier : ℚ
  SystemTTL : String
  ToolsTTL : String
  ContentTTL : String
  Priority : List String

/-- GetStrategyConfig from models.go: the per-strategy parameter bundle. -/
def GetStrategyConfig : CacheStrategy → StrategyConfig
  | .conservative =>
    { MaxBreakpoints := 2, MinTokensMultiplier := 2,
      SystemTTL := "1h", ToolsTTL := "1h", ContentTTL := "5m",
      Priority := ["system", "tools"] }
  | .moderate =>
    { MaxBreakpoints := 3, MinTokensMultiplier := 1,
      SystemTTL := "1h", ToolsTTL := "1h", ContentTTL := "5m",
      Priority := ["system", "tools", "content"] }
  | .aggressive =>
    { MaxBreakpoints := 4, MinTokensMultiplier := 4/5,
      SystemTTL := "1h", ToolsTTL := "1h", ContentTTL := "5m",
      Priority := ["system", "tools", "content", "large_content"] }

/-! Text helpers from injector.go.  Go strings are byte arrays of UTF-8
text; `goUTF8Len` is Go's `len`, and the byte-level substring scan of an
ASCII-lowered needle is embedded as a character-level scan (equivalent on
valid UTF-8). -/

/-- Go `len(s)` on a string: the UTF-8 byte length. -/
def goUTF8Len (s : String) : Nat :=
  s.data.foldl (fun n c => n + c.utf8Size) 0

/-- The ASCII lowering loop of findSubstringIgnoreCase: rune + 32 for A..Z. -/
def asciiLower (c : Char) : Char :=
  if 'A' ≤ c ∧ c ≤ 'Z' then Char.ofNat (c.toNat + 32) else c

/-- Does the text start with the pattern? (one probe of the Go scan loop) -/
def startsWithChars : List Char → List Char → Bool
  | _, [] => true
  | [], _ :: _ => false
  | a :: as, b :: bs => a == b && startsWithChars as bs

/-- The scan loop of findSubstringIgnoreCase: probe every position. -/
def scanContains (p : List Char) : List Char → Bool
  | [] => startsWithChars [] p
  | c :: rest => startsWithChars (c :: rest) p || scanContains p rest

/-- Go `strings.Contains(s, sub)`. -/
def goContains (s sub : String) : Bool :=
  scanContains sub.data s.data

/-- findSubstringIgnoreCase from injector.go: ASCII-lower both strings,
then substring-scan. -/
def findSubstringIgnoreCase (text substr : String) : Bool :=
  scanContains (substr.data.map asciiLower) (text.data.map asciiLower)

/-- containsCaseInsensitive from injector.go. -/
def containsCaseInsensitive (text substr : String) : Bool :=
  decide (goUTF8Len substr ≤ goUTF8Len text) && decide (0 < goUTF8Len substr) &&
    findSubstringIgnoreCase text substr

/-- The stablePatterns list of DetermineTTLForContent. -/
def stablePatterns : List String :=
  ["You are", "Your role", "Instructions:", "Guidelines:",
   "System:", "Context:", "Background:", "Reference:"]

/-- The pattern loop of DetermineTTLForContent. -/
def determineTTLLoop (text : String) (strategyConfig : StrategyConfig) :
    List String → String
  | [] => strategyConfig.ContentTTL
  | pattern :: rest =>
    if 1000 < goUTF8Len text ∧ containsCaseInsensitive text pattern = true then "1h"
    else determineTTLLoop text strategyConfig rest

/-- DetermineTTLForContent from injector.go: upgrade to "1h" when the text
is longer than 1000 bytes and contains a stable pattern. -/
def DetermineTTLForContent (text : String) (strategyConfig : StrategyConfig) : String :=
  determineTTLLoop text strategyConfig stablePatterns

/-! Pricing from internal/pricing/pricing.go.  The Go pricing table is a
map; lookups by exact key are order-independent, but the fuzzy-match loop
ranges over the map, so it takes the iteration order as an explicit
argument (`order`), a permutation of the table entries. -/

/-- ModelPricing from pricing.go: prices per 1M tokens. -/
structure ModelPricing where
  ModelName : String
  InputTokens : ℚ
  OutputTokens : ℚ
  CacheWrite5m : ℚ
  CacheWrite1h : ℚ
  CacheRead : ℚ
deriving DecidableEq

/-- Table entry for claude-sonnet-4-5-20250929. -/
def mpSonnet45 : String × ModelPricing :=
  ("claude-sonnet-4-5-20250929",
   ⟨"claude-sonnet-4-5-20250929", 3, 15, 3.75, 6, 0.30⟩)

/-- Table entry for claude-sonnet-4-20250514. -/
def mpSonnet4 : String × ModelPricing :=
  ("claude-sonnet-4-20250514",
   ⟨"claude-sonnet-4-20250514", 3, 15, 3.75, 6, 0.30⟩)

/-- Table entry for claude-3-7-sonnet-20250219. -/
def mpSonnet37 : String × ModelPricing :=
  ("claude-3-7-sonnet-20250219",
   ⟨"claude-3-7-sonnet-20250219", 3, 15, 3.75, 6, 0.30⟩)

/-- Table entry for claude-3-5-sonnet-20241022. -/
def mpSonnet35v2 : String × ModelPricing :=
  ("claude-3-5-sonnet-20241022",
   ⟨"claude-3-5-sonnet-20241022", 3, 15, 3.75, 6, 0.30⟩)

/-- Table entry for claude-3-5-sonnet-20240620. -/
def mpSonnet35v1 : String × ModelPricing :=
  ("claude-3-5-sonnet-20240620",
   ⟨"claude-3-5-sonnet-20240620", 3, 15, 3.75, 6, 0.30⟩)

/-- Table entry for claude-opus-4-1-20250805. -/
def mpOpus41 : String × ModelPricing :=
  ("claude-opus-4-1-20250805",
   ⟨"claude-opus-4-1-20250805", 15, 75, 18.75, 30, 1.50⟩)

/-- Table entry for claude-opus-4-20250514. -/
def mpOpus4 : String × ModelPricing :=
  ("claude-opus-4-20250514",
   ⟨"claude-opus-4-20250514", 15, 75, 18.75, 30, 1.50⟩)

/-- Table entry for claude-3-5-haiku-20241022. -/
def mpHaiku35 : String × ModelPricing :=
  ("claude-3-5-haiku-20241022",
   ⟨"claude-3-5-haiku-20241022", 0.80, 4, 1, 1.60, 0.08⟩)

/-- Table entry for claude-3-opus-20240229. -/
def mpOpus3 : String × ModelPricing :=
  ("claude-3-opus-20240229",
   ⟨"claude-3-opus-20240229", 15, 75, 18.75, 30, 1.50⟩)

/-- Table entry for claude-3-sonnet-20240229. -/
def mpSonnet3 : String × ModelPricing :=
  ("claude-3-sonnet-20240229",
   ⟨"claude-3-sonnet-20240229", 3, 15, 3.75, 6, 0.30⟩)

/-- Table entry for claude-3-haiku-20240307. -/
def mpHaiku3 : String × ModelPricing :=
  ("claude-3-haiku-20240307",
   ⟨"claude-3-haiku-20240307", 0.25, 1.25, 0.3125, 0.50, 0.025⟩)

/-- The pricing table built by NewPricingCalculator, in source order. -/
def pricingModels : List (String × ModelPricing) :=
  [mpSonnet45, mpSonnet4, mpSonnet37, mpSonnet35v2, mpSonnet35v1,
   mpOpus41, mpOpus4, mpHaiku35, mpOpus3, mpSonnet3, mpHaiku3]

/-- Go `strings.Split(s, "-")` on the characters of a string. -/
def splitOnDash : List Char → List (List Char)
  | [] => [[]]
  | c :: rest =>
    let r := splitOnDash rest
    if c == '-' then [] :: r
    else match r with
      | [] => [[c]]
      | g :: gs => (c :: g) :: gs

/-- The fuzzy-match test of GetModelPricing: both of the key's first two
dash-separated fragments occur as substrings of the queried model. -/
def fuzzyMatchKey (model key : String) : Bool :=
  scanContains ((splitOnDash key.data).getD 0 []) model.data &&
    scanContains ((splitOnDash key.data).getD 1 []) model.data

/-- GetModelPricing from pricing.go.  `order` is the map iteration order
used by the fuzzy-match loop.  The `Bool` is the Go error channel
(`true` = "unknown model" error, with default Claude 3.5 Sonnet pricing). -/
def GetModelPricing (order : List (String × ModelPricing)) (model : String) :
    ModelPricing × Bool :=
  match pricingModels.find? (fun e => e.1 == model) with
  | some e => (e.2, false)
  | none =>
    match order.find? (fun e => fuzzyMatchKey model e.1) with
    | some e => (e.2, false)
    | none => (mpSonnet35v2.2, true)

/-- CalculateBaseCost from pricing.go (returns 0 on lookup error). -/
def CalculateBaseCost (order : List (String × ModelPricing)) (model : String)
    (inputTokens outputTokens : Nat) : ℚ × Bool :=
  let pe := GetModelPricing order model
  if pe.2 then (0, true)
  else ((inputTokens : ℚ) / 1000000 * pe.1.InputTokens +
        (outputTokens : ℚ) / 1000000 * pe.1.OutputTokens, false)

/-- CalculateCacheWriteCost from pricing.go. -/
def CalculateCacheWriteCost (order : List (String × ModelPricing))
    (model : String) (tokens : Nat) (ttl : String) : ℚ × Bool :=
  let pe := GetModelPricing order model
  if pe.2 then (0, true)
  else
    let cachePrice :=
      if ttl = "5m" then pe.1.CacheWrite5m
      else if ttl = "1h" then pe.1.CacheWrite1h
      else pe.1.CacheWrite5m
    ((tokens : ℚ) / 1000000 * cachePrice, false)

/-- CalculateCacheReadCost from pricing.go. -/
def CalculateCacheReadCost (order : List (String × ModelPricing))
    (model : String) (tokens : Nat) : ℚ × Bool :=
  let pe := GetModelPricing order model
  if pe.2 then (0, true)
  else ((tokens : ℚ) / 1000000 * pe.1.CacheRead, false)

/-- Go `int(x)` truncation toward zero on a float, embedded on ℚ. -/
def goTrunc (q : ℚ) : Int :=
  if q < 0 then ⌈q⌉ else ⌊q⌋

/-- calculateSavingsAtN from pricing.go. -/
def calculateSavingsAtN (baseCost firstRequestCost subsequentRequestCost : ℚ)
    (n : Nat) : ℚ :=
  if n = 0 then 0
  else baseCost * (n : ℚ) -
    (firstRequestCost + subsequentRequestCost * ((n : ℚ) - 1))

/-- The zero value `types.ROIMetrics{}` returned on lookup error. -/
def zeroROIMetrics : ROIMetrics := ⟨0, 0, 0, 0, 0, 0, 0, 0, 0⟩

/-- CalculateROI from pricing.go. -/
def CalculateROI (order : List (String × ModelPricing)) (model : String)
    (totalTokens cachedTokens : Nat) (breakpoints : List CacheBreakpoint) :
    ROIMetrics × Bool :=
  let pe := GetModelPricing order model
  if pe.2 then (zeroROIMetrics, true)
  else
    let baseCost := (totalTokens : ℚ) / 1000000 * pe.1.InputTokens
    let totalCacheWriteCost := breakpoints.foldl
      (fun acc bp => acc + (CalculateCacheWriteCost order model bp.Tokens bp.TTL).1) 0
    let cacheReadCost := (CalculateCacheReadCost order model cachedTokens).1
    let nonCachedTokens : Int := (totalTokens : Int) - (cachedTokens : Int)
    let nonCachedCost := (nonCachedTokens : ℚ) / 1000000 * pe.1.InputTokens
    let firstRequestCost := totalCacheWriteCost + nonCachedCost
    let subsequentRequestCost := cacheReadCost + nonCachedCost
    let subsequentSavings := baseCost - subsequentRequestCost
    let breakEvenRequests : Int :=
      if 0 < subsequentSavings then
        goTrunc ((firstRequestCost - baseCost) / subsequentSavings) + 1
      else -1
    let savingsAt10 := calculateSavingsAtN baseCost firstRequestCost subsequentRequestCost 10
    let savingsAt100 := calculateSavingsAtN baseCost firstRequestCost subsequentRequestCost 100
    let percentSavings := if 0 < baseCost then subsequentSavings / baseCost * 100 else 0
    (⟨baseCost, totalCacheWriteCost, cacheReadCost, firstRequestCost,
      subsequentSavings, breakEvenRequests, savingsAt10, savingsAt100,
      percentSavings⟩, false)

/-- EstimateBreakpointROI from pricing.go: (write cost, savings per read,
break-even request count, error flag); zeros on lookup error. -/
def EstimateBreakpointROI (order : List (String × ModelPricing))
    (model : String) (tokens : Nat) (ttl : String) : ℚ × ℚ × Int × Bool :=
  let base := CalculateBaseCost order model tokens 0
  if base.2 then (0, 0, 0, true)
  else
    let write := CalculateCacheWriteCost order model tokens ttl
    if write.2 then (0, 0, 0, true)
    else
      let read := CalculateCacheReadCost order model tokens
      if read.2 then (0, 0, 0, true)
      else
        let savingsPerRead := base.1 - read.1
        let extraCost := write.1 - base.1
        if 0 < savingsPerRead then
          (write.1, savingsPerRead, 1 + ⌈extraCost / savingsPerRead⌉, false)
        else (write.1, savingsPerRead, -1, false)

/-! Tokenizer interface and the minimum-token functions of the three
backends (offline_tokenizer.go, tokenizer_comparison_test.go heuristic
AnthropicTokenizer, anthropic_real_tokenizer.go). -/

/-- The tokenizer interface the injector is generic over. -/
structure Tokenizer where
  CountTokens : String → Nat
  CountSystemTokens : String → Nat
  CountSystemBlocksTokens : List ContentBlock → Nat
  CountToolTokens : ToolDefinition → Nat
  EstimateRequestTokens : AnthropicRequest → Nat
  GetModelMinimumTokens : String → Nat

/-- OfflineTokenizer.GetModelMinimumTokens: exact match against the two
known haiku model identifiers. -/
def OfflineTokenizer.GetModelMinimumTokens (model : String) : Nat :=
  if model = "claude-3-haiku-20240307" ∨ model = "claude-3-5-haiku-20241022"
  then 2048 else 1024

/-- The haikuModels list shared by the heuristic and real-API backends. -/
def haikuModels : List String :=
  ["claude-3-haiku-20240307", "claude-3-5-haiku-20241022"]

/-- The loop body of the heuristic/real-API GetModelMinimumTokens. -/
def haikuLoop (model : String) : List String → Nat
  | [] => 1024
  | haikuModel :: rest =>
    if goContains model "haiku" || model == haikuModel then 2048
    else haikuLoop model rest

/-- AnthropicTokenizer.GetModelMinimumTokens (heuristic backend):
substring match on "haiku" or exact match in the loop. -/
def AnthropicTokenizer.GetModelMinimumTokens (model : String) : Nat :=
  haikuLoop model haikuModels

/-- AnthropicRealTokenizer.GetModelMinimumTokens (API backend): same loop
as the heuristic backend. -/
def AnthropicRealTokenizer.GetModelMinimumTokens (model : String) : Nat :=
  haikuLoop model haikuModels

/-! The cache-injection planner from injector.go. -/

/-- The `Content interface{}` field of a CacheCandidate: which structural
location the Go code holds a pointer to. -/
inductive Target where
  | systemString : Target
  | systemBlocks : Target
  | tools : Target
  | messageBlock (msgIdx blockIdx : Nat) : Target

/-- CacheCandidate from injector.go. -/
structure CacheCandidate where
  Position : String
  Tokens : Nat
  ContentType : String
  TTL : String
  ROIScore : ℚ
  WriteCost : ℚ
  ReadSavings : ℚ
  BreakEven : Int
  Content : Target

/-- CalculateROIScore from injector.go.  Note the dead `else if` branch:
`breakEven > 20` is only tested when `breakEven > 10` already failed. -/
def CalculateROIScore (tokens : Nat) (writeCost readSavings : ℚ)
    (breakEven : Int) (contentType : String) : ℚ :=
  let score := readSavings * 100
  let score := if 2048 < tokens then score * 1.2 else score
  let score := if 5000 < tokens then score * 1.3 else score
  let score :=
    if contentType = "system" then score * 2
    else if contentType = "tools" then score * 1.5
    else if contentType = "content" then
      if breakEven ≤ 2 then score * 1.3
      else if breakEven ≤ 5 then score * 1.1
      else score
    else score
  if 10 < breakEven then score * 0.5
  else if 20 < breakEven then score * 0.2
  else score

/-- CreateCandidate from injector.go (the ROI error is discarded). -/
def CreateCandidate (order : List (String × ModelPricing)) (position : String)
    (tokens : Nat) (contentType ttl model : String) (content : Target) :
    CacheCandidate :=
  let roi := EstimateBreakpointROI order model tokens ttl
  let writeCost := roi.1
  let readSavings := roi.2.1
  let breakEven := roi.2.2.1
  let roiScore := CalculateROIScore tokens writeCost readSavings breakEven contentType
  ⟨position, tokens, contentType, ttl, roiScore, writeCost, readSavings,
   breakEven, content⟩

/-- The per-block body of the message loop of CollectCacheCandidates:
text blocks with non-empty text and enough tokens become candidates. -/
def collectMessageCandidate (tk : Tokenizer) (order : List (String × ModelPricing))
    (model : String) (minTokens : Nat) (strategyConfig : StrategyConfig)
    (msgIdx : Nat) (q : Nat × ContentBlock) : Option CacheCandidate :=
  if q.2.«Type» = "text" ∧ q.2.Text ≠ "" ∧ minTokens ≤ tk.CountTokens q.2.Text then
    some (CreateCandidate order
      ("message_" ++ toString msgIdx ++ "_block_" ++ toString q.1)
      (tk.CountTokens q.2.Text) "content"
      (DetermineTTLForContent q.2.Text strategyConfig) model
      (.messageBlock msgIdx q.1))
  else none

/-- CollectCacheCandidates from injector.go: system string, system blocks,
tools, then message text blocks, in that order. -/
def CollectCacheCandidates (tk : Tokenizer) (order : List (String × ModelPricing))
    (req : AnthropicRequest) (minTokens : Nat) (strategyConfig : StrategyConfig) :
    List CacheCandidate :=
  (if req.System ≠ "" ∧ minTokens ≤ tk.CountSystemTokens req.System then
    [CreateCandidate order "system" (tk.CountSystemTokens req.System) "system"
      strategyConfig.SystemTTL req.Model .systemString]
   else []) ++
  (if req.SystemBlocks.isEmpty = false ∧ minTokens ≤ tk.CountSystemBlocksTokens req.SystemBlocks then
    [CreateCandidate order "system_blocks" (tk.CountSystemBlocksTokens req.SystemBlocks)
      "system" strategyConfig.SystemTTL req.Model .systemBlocks]
   else []) ++
  (if req.Tools.isEmpty = false ∧
      minTokens ≤ req.Tools.foldl (fun acc tool => acc + tk.CountToolTokens tool) 0 then
    [CreateCandidate order "tools"
      (req.Tools.foldl (fun acc tool => acc + tk.CountToolTokens tool) 0) "tools"
      strategyConfig.ToolsTTL req.Model .tools]
   else []) ++
  (req.Messages.enum.flatMap (fun p =>
    p.2.Content.enum.filterMap
      (collectMessageCandidate tk order req.Model minTokens strategyConfig p.1)))

/-- Replace the last element of a list (Go `l[len(l)-1] = f(l[len(l)-1])`). -/
def setLast (f : α → α) : List α → List α
  | [] => []
  | [a] => [f a]
  | a :: b :: rest => a :: setLast f (b :: rest)

/-- Replace the list element at an index (in-place mutation through a
pointer in the Go source). -/
def listModify (f : α → α) : Nat → List α → List α
  | _, [] => []
  | 0, a :: rest => f a :: rest
  | n + 1, a :: rest => a :: listModify f n rest

/-- applyCacheControlToContent from injector.go.  The `*string` arm is the
system-string case: the Go code returns `true` without attaching anything
("This would need to be handled at the request level"). -/
def applyCacheControlToContent (req : AnthropicRequest) (content : Target)
    (cacheControl : CacheControl) : AnthropicRequest × Bool :=
  match content with
  | .systemString => (req, true)
  | .systemBlocks =>
    match req.SystemBlocks with
    | [] => (req, false)
    | _ :: _ =>
      ({req with SystemBlocks :=
          setLast (fun b => {b with CacheControl := some cacheControl}) req.SystemBlocks},
       true)
  | .tools =>
    match req.Tools with
    | [] => (req, false)
    | _ :: _ =>
      ({req with Tools :=
          setLast (fun t => {t with CacheControl := some cacheControl}) req.Tools},
       true)
  | .messageBlock msgIdx blockIdx =>
    let setBlock := fun b => {b with CacheControl := some cacheControl}
    let setMsg := fun m => {m with Content := listModify setBlock blockIdx m.Content}
    ({req with Messages := listModify setMsg msgIdx req.Messages}, true)

/-- The breakpoint record built for an applied candidate. -/
def candidateBreakpoint (c : CacheCandidate) : CacheBreakpoint :=
  ⟨c.Position, c.Tokens, c.TTL, c.ContentType, c.WriteCost, c.ReadSavings⟩

/-- ApplyCacheControl from injector.go: apply each candidate's mark in
order, recording a breakpoint when the application reports success. -/
def ApplyCacheControl (req : AnthropicRequest) :
    List CacheCandidate → AnthropicRequest × List CacheBreakpoint
  | [] => (req, [])
  | c :: rest =>
    let cacheControl : CacheControl := ⟨"ephemeral", c.TTL⟩
    let step := applyCacheControlToContent req c.Content cacheControl
    let tail := ApplyCacheControl step.1 rest
    if step.2 then (tail.1, candidateBreakpoint c :: tail.2)
    else (tail.1, tail.2)

/-- calculateMetadata from injector.go. -/
def calculateMetadata (tk : Tokenizer) (order : List (String × ModelPricing))
    (req : AnthropicRequest) (breakpoints : List CacheBreakpoint)
    (strategy : CacheStrategy) : CacheMetadata :=
  let totalTokens := tk.EstimateRequestTokens req
  let cachedTokens : Nat := breakpoints.foldl (fun acc bp => acc + bp.Tokens) 0
  let cacheRatio : ℚ :=
    if 0 < totalTokens then (cachedTokens : ℚ) / (totalTokens : ℚ) else 0
  let roi := (CalculateROI order req.Model totalTokens cachedTokens breakpoints).1
  ⟨!breakpoints.isEmpty, totalTokens, cachedTokens, cacheRatio, breakpoints,
   roi, strategy.toGoString, req.Model⟩

/-- The adjusted minimum of InjectCacheControl:
`int(float64(minimumTokens) * strategyConfig.MinTokensMultiplier)`. -/
def plannerAdjustedMinimum (tk : Tokenizer) (strategy : CacheStrategy)
    (req : AnthropicRequest) : Nat :=
  (⌊(tk.GetModelMinimumTokens req.Model : ℚ) *
      (GetStrategyConfig strategy).MinTokensMultiplier⌋).toNat

/-- The candidate list InjectCacheControl collects (before the cap). -/
def plannerCandidates (tk : Tokenizer) (order : List (String × ModelPricing))
    (strategy : CacheStrategy) (req : AnthropicRequest) : List CacheCandidate :=
  CollectCacheCandidates tk order req (plannerAdjustedMinimum tk strategy req)
    (GetStrategyConfig strategy)

/-- InjectCacheControl from injector.go, as a total function: collect in
structural order, cap at MaxBreakpoints, apply marks, compute metadata.
Returns the (possibly mutated) request together with the metadata. -/
def InjectCacheControlCore (tk : Tokenizer) (order : List (String × ModelPricing))
    (strategy : CacheStrategy) (req : AnthropicRequest) :
    AnthropicRequest × CacheMetadata :=
  let strategyConfig := GetStrategyConfig strategy
  let candidates :=
    (plannerCandidates tk order strategy req).take strategyConfig.MaxBreakpoints
  let applied := ApplyCacheControl req candidates
  (applied.1, calculateMetadata tk order applied.1 applied.2 strategy)

/-- InjectCacheControl's Go signature returns `(metadata, error)`; its only
return site is `return metadata, nil`, embedded as an always-`ok` Except. -/
def InjectCacheControl (tk : Tokenizer) (order : List (String × ModelPricing))
    (strategy : CacheStrategy) (req : AnthropicRequest) :
    Except String (AnthropicRequest × CacheMetadata) :=
  .ok (InjectCacheControlCore tk order strategy req)

/-! JSON (de)serialization from internal/types/models.go.  Serialization is
Go `encoding/json` struct marshaling with the two custom methods
(`AnthropicRequest.MarshalJSON`, which emits `system` as an array exactly
when `SystemBlocks` is populated, and the custom unmarshalers that accept
both arms of the polymorphic fields).  Parsing into a struct decodes the
known keys and leaves absent keys at their zero value, as `encoding/json`
does. -/

/-- Look a key up among an object's fields (first match, as produced by the
serializer, which never emits duplicate keys). -/
def jGet (fields : List (String × Json)) (key : String) : Option Json :=
  (fields.find? (fun e => e.1 == key)).map (fun e => e.2)

/-- Decode a string field: absent or null leaves the zero value "". -/
def jStr (fields : List (String × Json)) (key : String) : Except String String :=
  match jGet fields key with
  | none => .ok ""
  | some .null => .ok ""
  | some (.str s) => .ok s
  | some _ => .error ("field " ++ key ++ ": expected string")

/-- Decode an int field: absent or null leaves 0; a fractional number is a
decode error, as in Go. -/
def jInt (fields : List (String × Json)) (key : String) : Except String Int :=
  match jGet fields key with
  | none => .ok 0
  | some .null => .ok 0
  | some (.num q) => if q.den = 1 then .ok q.num
    else .error ("field " ++ key ++ ": expected integer")
  | some _ => .error ("field " ++ key ++ ": expected integer")

/-- Decode an optional float field (`*float64`): absent or null is nil. -/
def jNumOpt (fields : List (String × Json)) (key : String) :
    Except String (Option ℚ) :=
  match jGet fields key with
  | none => .ok none
  | some .null => .ok none
  | some (.num q) => .ok (some q)
  | some _ => .error ("field " ++ key ++ ": expected number")

/-- Decode an optional int field (`*int`). -/
def jIntOpt (fields : List (String × Json)) (key : String) :
    Except String (Option Int) :=
  match jGet fields key with
  | none => .ok none
  | some .null => .ok none
  | some (.num q) => if q.den = 1 then .ok (some q.num)
    else .error ("field " ++ key ++ ": expected integer")
  | some _ => .error ("field " ++ key ++ ": expected integer")

/-- Decode an optional bool field (`*bool`). -/
def jBoolOpt (fields : List (String × Json)) (key : String) :
    Except String (Option Bool) :=
  match jGet fields key with
  | none => .ok none
  | some .null => .ok none
  | some (.bool b) => .ok (some b)
  | some _ => .error ("field " ++ key ++ ": expected bool")

/-- Decode an `interface{}` field: absent or null is the nil interface,
anything else is kept in decoded form. -/
def jAnyOpt (fields : List (String × Json)) (key : String) :
    Except String (Option Json) :=
  match jGet fields key with
  | none => .ok none
  | some .null => .ok none
  | some v => .ok (some v)

/-- An `omitempty` string field: omitted when empty. -/
def strField (key : String) (s : String) : List (String × Json) :=
  if s = "" then [] else [(key, Json.str s)]

/-- An `omitempty` pointer/interface field: omitted when nil. -/
def optField (key : String) : Option Json → List (String × Json)
  | none => []
  | some v => [(key, v)]

/-- Serialize a CacheControl (both fields always emitted). -/
def marshalCacheControl (c : CacheControl) : Json :=
  .obj [("type", .str c.«Type»), ("ttl", .str c.TTL)]

/-- Parse a CacheControl. -/
def unmarshalCacheControl (j : Json) : Except String CacheControl :=
  match j with
  | .obj fields => do
    let t ← jStr fields "type"
    let ttl ← jStr fields "ttl"
    .ok ⟨t, ttl⟩
  | _ => .error "cache_control: expected object"

/-- Decode an optional `*CacheControl` field. -/
def jCacheControlOpt (fields : List (String × Json)) (key : String) :
    Except String (Option CacheControl) :=
  match jGet fields key with
  | none => .ok none
  | some .null => .ok none
  | some v => do
    let c ← unmarshalCacheControl v
    .ok (some c)

/-- Serialize an ImageSource (all fields always emitted). -/
def marshalImageSource (s : ImageSource) : Json :=
  .obj [("type", .str s.«Type»), ("media_type", .str s.MediaType),
        ("data", .str s.Data)]

/-- Parse an ImageSource. -/
def unmarshalImageSource (j : Json) : Except String ImageSource :=
  match j with
  | .obj fields => do
    let t ← jStr fields "type"
    let mt ← jStr fields "media_type"
    let d ← jStr fields "data"
    .ok ⟨t, mt, d⟩
  | _ => .error "source: expected object"

/-- Decode an optional `*ImageSource` field. -/
def jImageSourceOpt (fields : List (String × Json)) (key : String) :
    Except String (Option ImageSource) :=
  match jGet fields key with
  | none => .ok none
  | some .null => .ok none
  | some v => do
    let s ← unmarshalImageSource v
    .ok (some s)

/-- Serialize a ContentBlock: `type` always, every other field omitted when
empty (`omitempty` on all of them). -/
def marshalContentBlockFields (b : ContentBlock) : List (String × Json) :=
  [("type", Json.str b.«Type»)] ++
    strField "text" b.Text ++
    optField "source" (b.Source.map marshalImageSource) ++
    optField "cache_control" (b.CacheControl.map marshalCacheControl) ++
    strField "id" b.ID ++
    strField "name" b.Name ++
    optField "input" b.Input ++
    strField "tool_use_id" b.ToolUseID ++
    optField "content" b.Content ++
    optField "is_error" (b.IsError.map Json.bool)

/-- Serialize a ContentBlock as an object of the fields above. -/
def marshalContentBlock (b : ContentBlock) : Json :=
  .obj (marshalContentBlockFields b)

/-- Parse a ContentBlock. -/
def unmarshalContentBlock (j : Json) : Except String ContentBlock :=
  match j with
  | .obj fields => do
    let t ← jStr fields "type"
    let text ← jStr fields "text"
    let source ← jImageSourceOpt fields "source"
    let cc ← jCacheControlOpt fields "cache_control"
    let id ← jStr fields "id"
    let name ← jStr fields "name"
    let input ← jAnyOpt fields "input"
    let toolUseID ← jStr fields "tool_use_id"
    let content ← jAnyOpt fields "content"
    let isError ← jBoolOpt fields "is_error"
    .ok ⟨t, text, source, cc, id, name, input, toolUseID, content, isError⟩
  | _ => .error "content block: expected object"

/-- Serialize a Message: content always as a block array. -/
def marshalMessage (m : Message) : Json :=
  .obj [("role", .str m.Role),
        ("content", .arr (m.Content.map marshalContentBlock))]

/-- Message.UnmarshalJSON from models.go: string content is canonicalized
to a single text block; an array is decoded block by block. -/
def unmarshalMessage (j : Json) : Except String Message :=
  match j with
  | .obj fields => do
    let role ← jStr fields "role"
    match jGet fields "content" with
    | none => .error "message: missing content"
    | some (.str s) =>
      .ok ⟨role, [⟨"text", s, none, none, "", "", none, "", none, none⟩]⟩
    | some .null =>
      .ok ⟨role, [⟨"text", "", none, none, "", "", none, "", none, none⟩]⟩
    | some (.arr blocks) => do
      let content ← blocks.mapM unmarshalContentBlock
      .ok ⟨role, content⟩
    | some _ => .error "message: bad content"
  | _ => .error "message: expected object"

/-- Serialize a ToolDefinition: `input_schema` has no omitempty, so a nil
schema is emitted as null. -/
def marshalToolDefinition (t : ToolDefinition) : Json :=
  .obj ([("name", Json.str t.Name), ("description", Json.str t.Description),
         ("input_schema", t.InputSchema.getD .null)] ++
    optField "cache_control" (t.CacheControl.map marshalCacheControl))

/-- Parse a ToolDefinition. -/
def unmarshalToolDefinition (j : Json) : Except String ToolDefinition :=
  match j with
  | .obj fields => do
    let name ← jStr fields "name"
    let description ← jStr fields "description"
    let schema ← jAnyOpt fields "input_schema"
    let cc ← jCacheControlOpt fields "cache_control"
    .ok ⟨name, description, schema, cc⟩
  | _ => .error "tool: expected object"

/-- AnthropicRequest.MarshalJSON from models.go: when `SystemBlocks` is
populated the `system` key carries the block array, otherwise the string
(omitted when empty); all other fields as in the struct, in declaration
order, with `omitempty` on the optional ones. -/
def marshalRequestFields (r : AnthropicRequest) : List (String × Json) :=
  [("model", Json.str r.Model), ("max_tokens", Json.num (r.MaxTokens : ℚ)),
   ("messages", Json.arr (r.Messages.map marshalMessage))] ++
    (if r.SystemBlocks.isEmpty then
      strField "system" r.System
     else [("system", Json.arr (r.SystemBlocks.map marshalContentBlock))]) ++
    (if r.Tools.isEmpty then []
     else [("tools", Json.arr (r.Tools.map marshalToolDefinition))]) ++
    optField "temperature" (r.Temperature.map Json.num) ++
    optField "top_p" (r.TopP.map Json.num) ++
    optField "top_k" (r.TopK.map (fun k => Json.num (k : ℚ))) ++
    optField "stream" (r.Stream.map Json.bool) ++
    (if r.StopSequences.isEmpty then []
     else [("stop_sequences", Json.arr (r.StopSequences.map Json.str))])

/-- Serialize an AnthropicRequest as an object of the fields above. -/
def marshalRequest (r : AnthropicRequest) : Json :=
  .obj (marshalRequestFields r)

/-- Decode a `[]Message` field. -/
def jMessages (fields : List (String × Json)) (key : String) :
    Except String (List Message) :=
  match jGet fields key with
  | none => .ok []
  | some .null => .ok []
  | some (.arr l) => l.mapM unmarshalMessage
  | some _ => .error "messages: expected array"

/-- Decode a `[]ToolDefinition` field. -/
def jTools (fields : List (String × Json)) (key : String) :
    Except String (List ToolDefinition) :=
  match jGet fields key with
  | none => .ok []
  | some .null => .ok []
  | some (.arr l) => l.mapM unmarshalToolDefinition
  | some _ => .error "tools: expected array"

/-- Decode a `[]string` field. -/
def jStrings (fields : List (String × Json)) (key : String) :
    Except String (List String) :=
  match jGet fields key with
  | none => .ok []
  | some .null => .ok []
  | some (.arr l) => l.mapM (fun x => match x with
    | .str s => Except.ok s
    | _ => Except.error "stop_sequences: expected string")
  | some _ => .error "stop_sequences: expected array"

/-- AnthropicRequest.UnmarshalJSON from models.go: decode every plain field,
then dispatch on the raw `system` value — string first (note that JSON null
decodes into a Go string as the zero value), then block array, otherwise
the "system field must be either a string or an array of content blocks"
error. -/
def unmarshalRequest (j : Json) : Except String AnthropicRequest :=
  match j with
  | .obj fields => do
    let model ← jStr fields "model"
    let maxTokens ← jInt fields "max_tokens"
    let messages ← jMessages fields "messages"
    let tools ← jTools fields "tools"
    let temperature ← jNumOpt fields "temperature"
    let topP ← jNumOpt fields "top_p"
    let topK ← jIntOpt fields "top_k"
    let stream ← jBoolOpt fields "stream"
    let stopSequences ← jStrings fields "stop_sequences"
    match jGet fields "system" with
    | none =>
      .ok ⟨model, maxTokens, messages, "", [], tools, temperature, topP, topK,
           stream, stopSequences⟩
    | some (.str s) =>
      .ok ⟨model, maxTokens, messages, s, [], tools, temperature, topP, topK,
           stream, stopSequences⟩
    | some .null =>
      .ok ⟨model, maxTokens, messages, "", [], tools, temperature, topP, topK,
           stream, stopSequences⟩
    | some (.arr blocks) => do
      let systemBlocks ← blocks.mapM unmarshalContentBlock
      .ok ⟨model, maxTokens, messages, "", systemBlocks, tools, temperature,
           topP, topK, stream, stopSequences⟩
    | some _ =>
      .error "system field must be either a string or an array of content blocks"
  | _ => .error "request: expected object"

/-! Header rendering: CacheMetadata.ToBreakpointsHeader from models.go and
the X-Autocache-Breakpoints value built inline by
AutocacheHandler.addCacheMetadataHeaders in the server. -/

/-- Go `string(rune(n))`: the UTF-8 encoding of the code point, or the
replacement character U+FFFD when the value is not a valid code point. -/
def goRuneString (n : Nat) : String :=
  if n ≤ 1114111 ∧ ¬(55296 ≤ n ∧ n ≤ 57343) then String.singleton (Char.ofNat n)
  else "�"

/-- The loop body of ToBreakpointsHeader: note `string(rune(bp.Tokens))`,
the token count rendered as a single character, not as decimal digits. -/
def toBreakpointsHeaderLoop (bps : List CacheBreakpoint) : String :=
  (bps.enum).foldl
    (fun result p =>
      (if 0 < p.1 then result ++ "," else result) ++
        p.2.Position ++ ":" ++ goRuneString p.2.Tokens ++ ":" ++ p.2.TTL)
    ""

/-- CacheMetadata.ToBreakpointsHeader from models.go. -/
def CacheMetadata.ToBreakpointsHeader (cm : CacheMetadata) : String :=
  if cm.Breakpoints.isEmpty then "" else toBreakpointsHeaderLoop cm.Breakpoints

/-- The X-Autocache-Breakpoints header value built by
addCacheMetadataHeaders: `fmt.Sprintf("%s:%d:%s", ...)`, i.e. the token
count in decimal. -/
def addCacheMetadataHeadersBreakpointsValue (bps : List CacheBreakpoint) : String :=
  (bps.enum).foldl
    (fun result p =>
      (if 0 < p.1 then result ++ "," else result) ++
        p.2.Position ++ ":" ++ toString p.2.Tokens ++ ":" ++ p.2.TTL)
    ""

/-! Lemmas and claim theorems. -/

/-- The pattern loop of DetermineTTLForContent returns "1h" exactly when the
text exceeds 1000 bytes and contains one of the patterns. -/
theorem determineTTLLoop_eq (text : String) (cfg : StrategyConfig) :
    ∀ pats : List String,
      determineTTLLoop text cfg pats =
        if 1000 < goUTF8Len text ∧
            (pats.any fun p => containsCaseInsensitive text p) = true then "1h"
        else cfg.ContentTTL := by
  intro pats
  induction pats with
  | nil => simp [determineTTLLoop]
  | cons p rest ih =>
    simp only [determineTTLLoop, List.any_cons, ih]
    by_cases h1 : 1000 < goUTF8Len text
    · by_cases h2 : containsCaseInsensitive text p = true
      · simp [h1, h2]
      · simp [h1, h2, Bool.or_eq_true]
    · simp [h1]

set_option maxRecDepth 10000

/-- C5: the claim says a candidate with break_even > 20 gets its score
multiplied by 0.2.  The code's `else if breakEven > 20` branch is dead
(`breakEven > 10` already matched), so break_even = 25 is multiplied by
0.5: with readSavings = 1 the score is 100 × 0.5 = 50, not 100 × 0.2 = 20.
This evaluates the embedded code at that failing input. -/
theorem claim_C5_roi_penalty_dead_branch :
    CalculateROIScore 100 1 1 25 "content" = 50 ∧
      CalculateROIScore 100 1 1 25 "content" ≠ 20 := by
  have h : CalculateROIScore 100 1 1 25 "content" = 50 := by
    norm_num [CalculateROIScore]
    simp
  exact ⟨h, by rw [h]; norm_num⟩

/-- Counterexample for C6: a 267-rune text (7 ASCII runes of "You are"
followed by 260 four-byte runes) is at most 1000 runes long, yet the code
upgrades its TTL to "1h" because its UTF-8 byte length (1047) exceeds 1000:
Go's `len(text) > 1000` counts bytes, not runes. -/
def c6Text : String := String.mk ("You are".data ++ List.replicate 260 '𝄞')

/-- C6 counterexample: a block of at most 1000 runes IS upgraded (the
claim says such a block is never upgraded). -/
theorem claim_C6_counterexample :
    c6Text.data.length ≤ 1000 ∧
      DetermineTTLForContent c6Text (GetStrategyConfig .moderate) = "1h" := by
  constructor <;> decide

/-- C6 (amended: byte length, not rune count): for every message text block
and strategy, the TTL is "1h" exactly when the text is longer than 1000
UTF-8 bytes and contains one of the stable phrases case-insensitively,
and the strategy default "5m" otherwise. -/
theorem claim_C6_ttl_upgrade_rule (text : String) (strat : CacheStrategy) :
    DetermineTTLForContent text (GetStrategyConfig strat) =
      if 1000 < goUTF8Len text ∧
          (stablePatterns.any fun p => containsCaseInsensitive text p) = true
      then "1h" else "5m" := by
  rw [DetermineTTLForContent, determineTTLLoop_eq]
  cases strat <;> rfl

/-- C7 counterexample: "claude-haiku-4" contains the substring "haiku",
yet the offline tokenizer backend returns 1024, not 2048 (it matches the
two known haiku identifiers exactly instead of by substring). -/
theorem claim_C7_counterexample :
    goContains "claude-haiku-4" "haiku" = true ∧
      OfflineTokenizer.GetModelMinimumTokens "claude-haiku-4" = 1024 := by
  constructor <;> decide

/-- C7 (amended): the heuristic and real-API backends return 2048 exactly
for identifiers containing "haiku" and 1024 otherwise; the offline backend
returns 2048 exactly for the two known haiku identifiers and 1024 for
every other identifier, including other identifiers containing "haiku". -/
theorem claim_C7_minimum_tokens_by_backend (model : String) :
    AnthropicTokenizer.GetModelMinimumTokens model =
      (if goContains model "haiku" = true then 2048 else 1024) ∧
    AnthropicRealTokenizer.GetModelMinimumTokens model =
      (if goContains model "haiku" = true then 2048 else 1024) ∧
    OfflineTokenizer.GetModelMinimumTokens model =
      (if model = "claude-3-haiku-20240307" ∨ model = "claude-3-5-haiku-20241022"
       then 2048 else 1024) := by
  have hloop : haikuLoop model haikuModels =
      (if goContains model "haiku" = true then 2048 else 1024) := by
    by_cases h : goContains model "haiku" = true
    · simp [haikuLoop, haikuModels, h]
    · have h1 : model ≠ "claude-3-haiku-20240307" := by
        rintro rfl; exact h (by decide)
      have h2 : model ≠ "claude-3-5-haiku-20241022" := by
        rintro rfl; exact h (by decide)
      simp [haikuLoop, haikuModels, h, h1, h2]
  exact ⟨hloop, hloop, rfl⟩

/-- C10: ToBreakpointsHeader renders a breakpoint's token count with
`string(rune(tokens))` — for 65 tokens the fragment is "position:A:ttl" —
while the decimal "position:tokens:ttl" format of the
X-Autocache-Breakpoints response header is built separately by the HTTP
handler's addCacheMetadataHeaders. -/
theorem claim_C10_breakpoints_header (md : CacheMetadata) (p ttl ty : String)
    (w r : ℚ) :
    CacheMetadata.ToBreakpointsHeader {md with Breakpoints := [⟨p, 65, ttl, ty, w, r⟩]} =
        p ++ ":A:" ++ ttl ∧
      addCacheMetadataHeadersBreakpointsValue [⟨p, 65, ttl, ty, w, r⟩] =
        p ++ ":65:" ++ ttl := by
  constructor
  · apply String.ext
    simp [CacheMetadata.ToBreakpointsHeader, toBreakpointsHeaderLoop, List.enum,
      goRuneString, String.data_append]
  · apply String.ext
    simp [addCacheMetadataHeadersBreakpointsValue, List.enum, String.data_append]
    rfl

/-- A tokenizer giving the system prompt 5000 tokens and message text 0:
any real backend similarly prices a long system string above threshold. -/
def c1Tokenizer : Tokenizer :=
  ⟨fun _ => 0, fun _ => 5000, fun _ => 0, fun _ => 0, fun _ => 6000, fun _ => 1024⟩

/-- A request carrying its system prompt in string form. -/
def c1Request : AnthropicRequest :=
  ⟨"claude-3-5-sonnet-20241022", 100,
   [⟨"user", [⟨"text", "Hello", none, none, "", "", none, "", none, none⟩]⟩],
   "You are a helpful assistant with detailed instructions.", [], [],
   none, none, none, none, []⟩

/-- C1: the claim says a selected system candidate in string form is
converted to block form with the ephemeral mark on the synthesized block.
The code does neither: applyCacheControlToContent's `*string` arm returns
true without touching the request, so the planner reports a "system"
breakpoint while the request — and hence its serialization — is completely
unchanged (no cache mark anywhere in the outbound body). -/
theorem claim_C1_system_string_mark_dropped :
    (InjectCacheControlCore c1Tokenizer pricingModels .moderate c1Request).1 = c1Request ∧
    (InjectCacheControlCore c1Tokenizer pricingModels .moderate c1Request).2.Breakpoints.map
        (fun bp => bp.Position) = ["system"] ∧
    marshalRequest (InjectCacheControlCore c1Tokenizer pricingModels .moderate c1Request).1 =
      marshalRequest c1Request := by
  have hmin : plannerAdjustedMinimum c1Tokenizer .moderate c1Request = 1024 := by
    simp [plannerAdjustedMinimum, c1Tokenizer, GetStrategyConfig]
  have h1 : (InjectCacheControlCore c1Tokenizer pricingModels .moderate c1Request).1 =
      c1Request := by
    simp only [InjectCacheControlCore, plannerCandidates, hmin]; rfl
  refine ⟨h1, ?_, congrArg marshalRequest h1⟩
  simp only [InjectCacheControlCore, plannerCandidates, hmin]; rfl

/-- The pricing table in a different (rotated) iteration order, as Go's
randomized map iteration may produce. -/
def pricingModelsReordered : List (String × ModelPricing) :=
  [mpOpus3, mpSonnet45, mpSonnet4, mpSonnet37, mpSonnet35v2, mpSonnet35v1,
   mpOpus41, mpOpus4, mpHaiku35, mpSonnet3, mpHaiku3]

/-- A tokenizer estimating the whole request at 1,000,000 tokens. -/
def c4Tokenizer : Tokenizer :=
  ⟨fun _ => 0, fun _ => 0, fun _ => 0, fun _ => 0, fun _ => 1000000, fun _ => 1024⟩

/-- A request naming a model that is no exact pricing key and
fuzzy-matches several entries with different prices ("claude" and "3"
both occur in it). -/
def c4Request : AnthropicRequest :=
  ⟨"claude-3-pony", 100, [], "", [], [], none, none, none, none, []⟩

/-- C4: planner determinism fails for models that fuzzy-match more than
one pricing entry.  The two orders are permutations of the same table
(Go map iteration order is arbitrary), yet GetModelPricing resolves
"claude-3-pony" to $3/M input in one order and $15/M in the other, and the
planner's metadata (the ROI projection) differs accordingly between the
two runs. -/
theorem claim_C4_fuzzy_pricing_order_dependent :
    pricingModelsReordered.Perm pricingModels ∧
    (GetModelPricing pricingModels "claude-3-pony").1.InputTokens = 3 ∧
    (GetModelPricing pricingModelsReordered "claude-3-pony").1.InputTokens = 15 ∧
    (InjectCacheControlCore c4Tokenizer pricingModels .moderate c4Request).2.ROI.BaseInputCost = 3 ∧
    (InjectCacheControlCore c4Tokenizer pricingModelsReordered .moderate c4Request).2.ROI.BaseInputCost = 15 ∧
    (InjectCacheControlCore c4Tokenizer pricingModels .moderate c4Request).2 ≠
      (InjectCacheControlCore c4Tokenizer pricingModelsReordered .moderate c4Request).2 := by
  have hperm : pricingModelsReordered.Perm pricingModels := by
    have h : pricingModels =
        [mpSonnet45, mpSonnet4, mpSonnet37, mpSonnet35v2, mpSonnet35v1,
         mpOpus41, mpOpus4, mpHaiku35] ++ mpOpus3 :: [mpSonnet3, mpHaiku3] := rfl
    have h2 : pricingModelsReordered =
        mpOpus3 :: ([mpSonnet45, mpSonnet4, mpSonnet37, mpSonnet35v2, mpSonnet35v1,
         mpOpus41, mpOpus4, mpHaiku35] ++ [mpSonnet3, mpHaiku3]) := rfl
    rw [h, h2]
    exact List.perm_middle.symm
  have hmin : plannerAdjustedMinimum c4Tokenizer .moderate c4Request = 1024 := by
    simp [plannerAdjustedMinimum, c4Tokenizer, GetStrategyConfig]
  have hroi : ∀ o, (InjectCacheControlCore c4Tokenizer o .moderate c4Request).2.ROI =
      (CalculateROI o "claude-3-pony" 1000000 0 []).1 := by
    intro o
    have hcand : plannerCandidates c4Tokenizer o .moderate c4Request = [] := by
      rw [plannerCandidates, hmin]; rfl
    simp only [InjectCacheControlCore, hcand]; rfl
  have hb1 : (CalculateROI pricingModels "claude-3-pony" 1000000 0 []).1.BaseInputCost = 3 := by
    have h1 : (GetModelPricing pricingModels "claude-3-pony").1.InputTokens = 3 := by decide
    have h2 : (GetModelPricing pricingModels "claude-3-pony").2 = false := by decide
    simp only [CalculateROI, h1, h2, Bool.false_eq_true, if_false]
    norm_num
  have hb2 : (CalculateROI pricingModelsReordered "claude-3-pony" 1000000 0 []).1.BaseInputCost = 15 := by
    have h1 : (GetModelPricing pricingModelsReordered "claude-3-pony").1.InputTokens = 15 := by decide
    have h2 : (GetModelPricing pricingModelsReordered "claude-3-pony").2 = false := by decide
    simp only [CalculateROI, h1, h2, Bool.false_eq_true, if_false]
    norm_num
  have hc1 : (InjectCacheControlCore c4Tokenizer pricingModels .moderate c4Request).2.ROI.BaseInputCost = 3 := by
    rw [hroi]; exact hb1
  have hc2 : (InjectCacheControlCore c4Tokenizer pricingModelsReordered .moderate c4Request).2.ROI.BaseInputCost = 15 := by
    rw [hroi]; exact hb2
  refine ⟨hperm, by decide, by decide, hc1, hc2, fun h => ?_⟩
  have := congrArg (fun m => m.ROI.BaseInputCost) h
  simp only at this
  rw [hc1, hc2] at this
  norm_num at this

/-- ApplyCacheControl records at most one breakpoint per candidate. -/
theorem applyCacheControl_length_le (l : List CacheCandidate) :
    ∀ req : AnthropicRequest, (ApplyCacheControl req l).2.length ≤ l.length := by
  induction l with
  | nil => intro req; simp [ApplyCacheControl]
  | cons c rest ih =>
    intro req
    cases hb : (applyCacheControlToContent req c.Content ⟨"ephemeral", c.TTL⟩).2 <;>
      simp only [ApplyCacheControl, hb, if_true, if_false, List.length_cons] <;>
      [exact le_trans (ih _) (Nat.le_succ _); exact Nat.succ_le_succ (ih _)]

/-- C2: for every tokenizer, pricing order, strategy and request, the
planner emits at most MaxBreakpoints(strategy) breakpoints — 2, 3 or 4 for
conservative, moderate and aggressive — and MaxBreakpoints is at most 4,
so a request carries at most four cache marks after planning. -/
theorem claim_C2_breakpoint_cap (tk : Tokenizer) (order : List (String × ModelPricing))
    (strat : CacheStrategy) (req : AnthropicRequest) :
    (InjectCacheControlCore tk order strat req).2.Breakpoints.length ≤
        (GetStrategyConfig strat).MaxBreakpoints ∧
      (GetStrategyConfig strat).MaxBreakpoints ≤ 4 := by
  constructor
  · show (ApplyCacheControl req ((plannerCandidates tk order strat req).take
        (GetStrategyConfig strat).MaxBreakpoints)).2.length ≤ _
    refine le_trans (applyCacheControl_length_le _ _) ?_
    simp [List.length_take]
  · cases strat <;> decide

/-- C9: the planner never returns an error, and when no candidate meets the
threshold (the collected list is empty) it emits zero breakpoints, the
metadata records injected = false with cached_tokens 0, and the request is
returned unchanged. -/
theorem claim_C9_planner_never_fails (tk : Tokenizer)
    (order : List (String × ModelPricing)) (strat : CacheStrategy)
    (req : AnthropicRequest)
    (h : plannerCandidates tk order strat req = []) :
    InjectCacheControl tk order strat req =
        .ok (req, calculateMetadata tk order req [] strat) ∧
      (InjectCacheControlCore tk order strat req).1 = req ∧
      (InjectCacheControlCore tk order strat req).2.Breakpoints = [] ∧
      (InjectCacheControlCore tk order strat req).2.CacheInjected = false ∧
      (InjectCacheControlCore tk order strat req).2.CachedTokens = 0 := by
  have hcore : InjectCacheControlCore tk order strat req =
      (req, calculateMetadata tk order req [] strat) := by
    simp only [InjectCacheControlCore, h, List.take_nil]; rfl
  exact ⟨by rw [InjectCacheControl, hcore], by rw [hcore],
    by rw [hcore]; rfl, by rw [hcore]; rfl, by rw [hcore]; rfl⟩

/-- A tokenizer counting every region at 0 tokens — no candidate can meet
the 1024-token threshold. -/
def c9Tokenizer : Tokenizer :=
  ⟨fun _ => 0, fun _ => 0, fun _ => 0, fun _ => 0, fun _ => 20, fun _ => 1024⟩

/-- A request whose short system prompt is below every threshold. -/
def c9Request : AnthropicRequest :=
  ⟨"claude-3-5-sonnet-20241022", 100,
   [⟨"user", [⟨"text", "Hello", none, none, "", "", none, "", none, none⟩]⟩],
   "You are helpful.", [], [], none, none, none, none, []⟩

/-- Witness for C9 at a concrete zero-candidate input. -/
theorem claim_C9_planner_never_fails_witness :
    plannerCandidates c9Tokenizer pricingModels .moderate c9Request = [] ∧
      (InjectCacheControlCore c9Tokenizer pricingModels .moderate c9Request).2.CacheInjected =
        false :=
  have h : plannerCandidates c9Tokenizer pricingModels .moderate c9Request = [] := by
    have hmin : plannerAdjustedMinimum c9Tokenizer .moderate c9Request = 1024 := by
      simp [plannerAdjustedMinimum, c9Tokenizer, GetStrategyConfig]
    rw [plannerCandidates, hmin]; rfl
  ⟨h, (claim_C9_planner_never_fails c9Tokenizer pricingModels .moderate c9Request
    h).2.2.2.1⟩

/-- Rank of a target in the planner's structural traversal. -/
def Target.structRank : Target → Nat
  | .systemString => 0
  | .systemBlocks => 1
  | .tools => 2
  | .messageBlock _ _ => 3

/-- Strict structural order on targets: lower rank first; message blocks
ordered by message index, then block index. -/
def structuralBefore (a b : Target) : Prop :=
  a.structRank < b.structRank ∨
    (∃ i j i' j', a = .messageBlock i j ∧ b = .messageBlock i' j' ∧
      (i < i' ∨ (i = i' ∧ j < j')))

theorem pairwise_fst_lt_enumFrom (l : List α) :
    ∀ n : Nat, (List.enumFrom n l).Pairwise (fun a b => a.1 < b.1) := by
  induction l with
  | nil => intro n; simp
  | cons x xs ih =>
    intro n
    simp only [List.enumFrom]
    refine List.Pairwise.cons ?_ (ih (n + 1))
    intro y hy
    exact lt_of_lt_of_le (Nat.lt_succ_self n) (List.le_fst_of_mem_enumFrom hy)

theorem pairwise_fst_lt_enum (l : List α) :
    (List.enum l).Pairwise (fun a b => a.1 < b.1) := by
  rw [List.enum_eq_enumFrom]
  exact pairwise_fst_lt_enumFrom l 0

theorem collectMessageCandidate_content {tk : Tokenizer}
    {o : List (String × ModelPricing)} {model : String} {min : Nat}
    {cfg : StrategyConfig} {i : Nat} {q : Nat × ContentBlock} {c : CacheCandidate}
    (h : collectMessageCandidate tk o model min cfg i q = some c) :
    c.Content = .messageBlock i q.1 := by
  unfold collectMessageCandidate at h
  split at h
  · obtain rfl := Option.some.inj h
    rfl
  · exact absurd h (by simp)

theorem msgSegment_pairwise (tk : Tokenizer) (o : List (String × ModelPricing))
    (model : String) (min : Nat) (cfg : StrategyConfig) (msgs : List Message) :
    ((msgs.enum.flatMap (fun p => p.2.Content.enum.filterMap
        (collectMessageCandidate tk o model min cfg p.1)))).Pairwise
      (fun a b => structuralBefore a.Content b.Content) := by
  rw [List.pairwise_flatMap]
  constructor
  · intro p _
    rw [List.pairwise_filterMap]
    refine (pairwise_fst_lt_enum p.2.Content).imp ?_
    intro q q' hlt b hb b' hb'
    rw [Option.mem_def] at hb hb'
    right
    exact ⟨p.1, q.1, p.1, q'.1, collectMessageCandidate_content hb,
      collectMessageCandidate_content hb', Or.inr ⟨rfl, hlt⟩⟩
  · refine (pairwise_fst_lt_enum msgs).imp ?_
    intro p p' hlt x hx y hy
    obtain ⟨q, _, hsome⟩ := List.mem_filterMap.1 hx
    obtain ⟨q', _, hsome'⟩ := List.mem_filterMap.1 hy
    right
    exact ⟨p.1, q.1, p'.1, q'.1, collectMessageCandidate_content hsome,
      collectMessageCandidate_content hsome', Or.inl hlt⟩

theorem mem_ite_singleton {P : Prop} [Decidable P] {x a : α}
    (h : a ∈ (if P then [x] else [])) : a = x ∧ P := by
  split at h
  · next hp => simp at h; exact ⟨h, hp⟩
  · simp at h

theorem msgSegment_content {tk : Tokenizer} {o : List (String × ModelPricing)}
    {model : String} {min : Nat} {cfg : StrategyConfig} {msgs : List Message}
    {c : CacheCandidate}
    (h : c ∈ msgs.enum.flatMap (fun p => p.2.Content.enum.filterMap
        (collectMessageCandidate tk o model min cfg p.1))) :
    ∃ i j, c.Content = .messageBlock i j := by
  obtain ⟨p, _, hmem⟩ := List.mem_flatMap.1 h
  obtain ⟨q, _, hsome⟩ := List.mem_filterMap.1 hmem
  exact ⟨p.1, q.1, collectMessageCandidate_content hsome⟩

theorem collect_pairwise (tk : Tokenizer) (o : List (String × ModelPricing))
    (req : AnthropicRequest) (min : Nat) (cfg : StrategyConfig) :
    (CollectCacheCandidates tk o req min cfg).Pairwise
      (fun a b => structuralBefore a.Content b.Content) := by
  unfold CollectCacheCandidates
  refine List.pairwise_append.2 ⟨?_, ?_, ?_⟩
  · refine List.pairwise_append.2 ⟨?_, ?_, ?_⟩
    · refine List.pairwise_append.2 ⟨?_, ?_, ?_⟩
      · split <;> simp
      · split <;> simp
      · -- system before system_blocks
        intro a ha b hb
        obtain ⟨rfl, -⟩ := mem_ite_singleton ha
        obtain ⟨rfl, -⟩ := mem_ite_singleton hb
        left; norm_num [CreateCandidate, Target.structRank]
    · split <;> simp
    · -- system and system_blocks before tools
      intro a ha b hb
      obtain ⟨rfl, -⟩ := mem_ite_singleton hb
      rcases List.mem_append.1 ha with ha | ha <;>
        [obtain ⟨rfl, -⟩ := mem_ite_singleton ha;
         obtain ⟨rfl, -⟩ := mem_ite_singleton ha] <;>
        (left; norm_num [CreateCandidate, Target.structRank])
  · exact msgSegment_pairwise tk o req.Model min cfg req.Messages
  · -- system, system_blocks and tools before message blocks
    intro a ha b hb
    obtain ⟨i, j, hc⟩ := msgSegment_content hb
    rcases List.mem_append.1 ha with ha | ha
    · rcases List.mem_append.1 ha with ha | ha <;>
        [obtain ⟨rfl, -⟩ := mem_ite_singleton ha;
         obtain ⟨rfl, -⟩ := mem_ite_singleton ha] <;>
        (left; rw [hc]; norm_num [CreateCandidate, Target.structRank])
    · obtain ⟨rfl, -⟩ := mem_ite_singleton ha
      left; rw [hc]; norm_num [CreateCandidate, Target.structRank]

/-- The invariant making applyCacheControlToContent report success: the
addressed sequence is non-empty (trivial for the other targets). -/
def TargetOk (req : AnthropicRequest) : Target → Prop
  | .systemString => True
  | .systemBlocks => req.SystemBlocks ≠ []
  | .tools => req.Tools ≠ []
  | .messageBlock _ _ => True

theorem setLast_length (f : α → α) : ∀ l : List α, (setLast f l).length = l.length
  | [] => rfl
  | [_] => rfl
  | a :: b :: rest => by
    simp only [setLast, List.length_cons]
    exact congrArg Nat.succ (setLast_length f (b :: rest))

theorem applyOne_systemBlocks_length (req : AnthropicRequest) (t : Target)
    (cc : CacheControl) :
    (applyCacheControlToContent req t cc).1.SystemBlocks.length =
      req.SystemBlocks.length := by
  cases t with
  | systemString => rfl
  | systemBlocks =>
    simp only [applyCacheControlToContent]
    split
    · rfl
    · simp [setLast_length]
  | tools =>
    simp only [applyCacheControlToContent]
    split <;> rfl
  | messageBlock i j => rfl

theorem applyOne_tools_length (req : AnthropicRequest) (t : Target)
    (cc : CacheControl) :
    (applyCacheControlToContent req t cc).1.Tools.length = req.Tools.length := by
  cases t with
  | systemString => rfl
  | systemBlocks =>
    simp only [applyCacheControlToContent]
    split <;> rfl
  | tools =>
    simp only [applyCacheControlToContent]
    split
    · rfl
    · simp [setLast_length]
  | messageBlock i j => rfl

theorem applyOne_targetOk {req : AnthropicRequest} (t : Target) (cc : CacheControl)
    {t' : Target} (h : TargetOk req t') :
    TargetOk (applyCacheControlToContent req t cc).1 t' := by
  cases t' with
  | systemString => trivial
  | systemBlocks =>
    simp only [TargetOk, ← List.length_pos_iff_ne_nil] at h ⊢
    rw [applyOne_systemBlocks_length]
    exact h
  | tools =>
    simp only [TargetOk, ← List.length_pos_iff_ne_nil] at h ⊢
    rw [applyOne_tools_length]
    exact h
  | messageBlock i j => trivial

theorem applyOne_applied {req : AnthropicRequest} {t : Target} (cc : CacheControl)
    (h : TargetOk req t) : (applyCacheControlToContent req t cc).2 = true := by
  cases t with
  | systemString => rfl
  | systemBlocks =>
    simp only [applyCacheControlToContent]
    split
    · next heq => exact absurd heq h
    · rfl
  | tools =>
    simp only [applyCacheControlToContent]
    split
    · next heq => exact absurd heq h
    · rfl
  | messageBlock i j => rfl

theorem applyCacheControl_eq_map (l : List CacheCandidate) :
    ∀ req : AnthropicRequest, (∀ c ∈ l, TargetOk req c.Content) →
      (ApplyCacheControl req l).2 = l.map candidateBreakpoint := by
  induction l with
  | nil => intro req _; rfl
  | cons c rest ih =>
    intro req h
    have hc := h c (List.mem_cons_self c rest)
    have happ := applyOne_applied (t := c.Content) ⟨"ephemeral", c.TTL⟩ hc
    simp only [ApplyCacheControl, happ, if_true, List.map_cons]
    congr 1
    exact ih _ (fun c' hc' =>
      applyOne_targetOk c.Content ⟨"ephemeral", c.TTL⟩ (h c' (List.mem_cons_of_mem c hc')))

theorem collect_targetOk (tk : Tokenizer) (o : List (String × ModelPricing))
    (req : AnthropicRequest) (min : Nat) (cfg : StrategyConfig) :
    ∀ c ∈ CollectCacheCandidates tk o req min cfg, TargetOk req c.Content := by
  intro c hc
  unfold CollectCacheCandidates at hc
  rcases List.mem_append.1 hc with hc | hc
  · rcases List.mem_append.1 hc with hc | hc
    · rcases List.mem_append.1 hc with hc | hc
      · obtain ⟨rfl, -⟩ := mem_ite_singleton hc
        trivial
      · obtain ⟨rfl, hP⟩ := mem_ite_singleton hc
        have : req.SystemBlocks ≠ [] := by
          have := hP.1
          simpa [List.isEmpty_iff] using this
        exact this
    · obtain ⟨rfl, hP⟩ := mem_ite_singleton hc
      have : req.Tools ≠ [] := by
        have := hP.1
        simpa [List.isEmpty_iff] using this
      exact this
  · obtain ⟨i, j, hcc⟩ := msgSegment_content hc
    rw [hcc]; trivial

/-- The pricing-independent identity of a candidate: position, token
count, TTL. -/
def candKey (c : CacheCandidate) : String × Nat × String :=
  (c.Position, c.Tokens, c.TTL)

theorem filterMap_map_congr {α β γ : Type} {f g : α → Option β} {k : β → γ}
    (h : ∀ a, (f a).map k = (g a).map k) :
    ∀ l : List α, (l.filterMap f).map k = (l.filterMap g).map k := by
  intro l
  induction l with
  | nil => rfl
  | cons a as ih =>
    simp only [List.filterMap_cons]
    have ha := h a
    cases hfa : f a <;> cases hga : g a <;> rw [hfa, hga] at ha
    · exact ih
    · simp at ha
    · simp at ha
    · simp only [Option.map_some'] at ha
      simp only [List.map_cons, ih]
      rw [Option.some.inj ha]

theorem flatMap_map_congr {α β γ : Type} {F G : α → List β} {k : β → γ}
    (h : ∀ a, (F a).map k = (G a).map k) :
    ∀ l : List α, (l.flatMap F).map k = (l.flatMap G).map k := by
  intro l
  induction l with
  | nil => rfl
  | cons a as ih =>
    simp only [List.flatMap_cons, List.map_append, h a, ih]

theorem collectMessageCandidate_key (tk : Tokenizer)
    (o₁ o₂ : List (String × ModelPricing)) (model : String) (min : Nat)
    (cfg : StrategyConfig) (i : Nat) (q : Nat × ContentBlock) :
    (collectMessageCandidate tk o₁ model min cfg i q).map candKey =
      (collectMessageCandidate tk o₂ model min cfg i q).map candKey := by
  unfold collectMessageCandidate
  split <;> rfl

theorem collect_key_order_indep (tk : Tokenizer)
    (o₁ o₂ : List (String × ModelPricing)) (req : AnthropicRequest) (min : Nat)
    (cfg : StrategyConfig) :
    (CollectCacheCandidates tk o₁ req min cfg).map candKey =
      (CollectCacheCandidates tk o₂ req min cfg).map candKey := by
  unfold CollectCacheCandidates
  simp only [List.map_append]
  congr 1
  congr 1
  congr 1
  · split <;> rfl
  · split <;> rfl
  · split <;> rfl
  · have hmsg : ∀ p : Nat × Message,
        ((p.2.Content.enum.filterMap
            (collectMessageCandidate tk o₁ req.Model min cfg p.1)).map candKey) =
          ((p.2.Content.enum.filterMap
            (collectMessageCandidate tk o₂ req.Model min cfg p.1)).map candKey) :=
      fun p => filterMap_map_congr
        (collectMessageCandidate_key tk o₁ o₂ req.Model min cfg p.1) p.2.Content.enum
    exact flatMap_map_congr hmsg req.Messages.enum

/-- C3: the emitted breakpoints are exactly the first MaxBreakpoints
candidates of the structural collection (a take-prefix, mapped to
breakpoint records, preserving order); the collected candidates are
pairwise in structural order (system forms, then tools, then message
blocks by message index then block index); and the emitted positions,
token counts and TTLs are identical under any two pricing-map iteration
orders, so ROI scores play no role in selection or ordering. -/
theorem claim_C3_structural_order_selection (tk : Tokenizer) (o₁ o₂ : List (String × ModelPricing))
    (strat : CacheStrategy) (req : AnthropicRequest) :
    (InjectCacheControlCore tk o₁ strat req).2.Breakpoints =
        ((plannerCandidates tk o₁ strat req).take
          (GetStrategyConfig strat).MaxBreakpoints).map candidateBreakpoint ∧
      (plannerCandidates tk o₁ strat req).Pairwise
        (fun a b => structuralBefore a.Content b.Content) ∧
      (InjectCacheControlCore tk o₁ strat req).2.Breakpoints.map
          (fun bp => (bp.Position, bp.Tokens, bp.TTL)) =
        (InjectCacheControlCore tk o₂ strat req).2.Breakpoints.map
          (fun bp => (bp.Position, bp.Tokens, bp.TTL)) := by
  have hbp : ∀ o, (InjectCacheControlCore tk o strat req).2.Breakpoints =
      ((plannerCandidates tk o strat req).take
        (GetStrategyConfig strat).MaxBreakpoints).map candidateBreakpoint := by
    intro o
    show (ApplyCacheControl req _).2 = _
    exact applyCacheControl_eq_map _ _ (fun c hc =>
      collect_targetOk tk o req _ _ c (List.take_subset _ _ hc))
  refine ⟨hbp o₁, collect_pairwise tk o₁ req _ _, ?_⟩
  rw [hbp o₁, hbp o₂, List.map_map, List.map_map]
  have hk : ((fun bp : CacheBreakpoint => (bp.Position, bp.Tokens, bp.TTL)) ∘
      candidateBreakpoint) = candKey := rfl
  rw [hk, plannerCandidates, plannerCandidates, List.map_take, List.map_take,
    collect_key_order_indep tk o₁ o₂]

theorem jGet_nil (k : String) : jGet [] k = none := rfl

theorem jGet_append (l₁ l₂ : List (String × Json)) (k : String) :
    jGet (l₁ ++ l₂) k =
      match jGet l₁ k with
      | some v => some v
      | none => jGet l₂ k := by
  unfold jGet
  rw [List.find?_append]
  cases h : List.find? (fun e => e.1 == k) l₁ <;> simp [Option.orElse, h]

theorem jGet_single_self (k : String) (v : Json) : jGet [(k, v)] k = some v := by
  simp [jGet, List.find?]

theorem jGet_single_ne {k k' : String} (h : (k' == k) = false) (v : Json) :
    jGet [(k, v)] k' = none := by
  have hne : k ≠ k' := by
    intro he
    subst he
    simp at h
  simp only [jGet, List.find?]
  rw [show (k == k') = false by simpa using hne]
  rfl

theorem jGet_strField_self (k : String) (s : String) :
    jGet (strField k s) k = if s = "" then none else some (Json.str s) := by
  unfold strField
  split <;> simp [jGet_nil, jGet_single_self]

theorem jGet_strField_ne {k k' : String} (h : (k' == k) = false) (s : String) :
    jGet (strField k s) k' = none := by
  unfold strField
  split
  · rfl
  · exact jGet_single_ne h _

theorem jGet_optField_self (k : String) (o : Option Json) :
    jGet (optField k o) k = o := by
  cases o <;> simp [optField, jGet_nil, jGet_single_self]

theorem jGet_optField_ne {k k' : String} (h : (k' == k) = false) (o : Option Json) :
    jGet (optField k o) k' = none := by
  cases o
  · rfl
  · exact jGet_single_ne h _

theorem unmarshalCacheControl_marshal (c : CacheControl) :
    unmarshalCacheControl (marshalCacheControl c) = .ok c := by
  simp [unmarshalCacheControl, marshalCacheControl, jStr, jGet, List.find?,
    Bind.bind, Except.bind]

theorem unmarshalImageSource_marshal (s : ImageSource) :
    unmarshalImageSource (marshalImageSource s) = .ok s := by
  simp [unmarshalImageSource, marshalImageSource, jStr, jGet, List.find?,
    Bind.bind, Except.bind]

def optJsonOk : Option Json → Bool
  | some .null => false
  | _ => true

theorem jStr_of_strField {fields : List (String × Json)} {k s : String}
    (h : jGet fields k = if s = "" then none else some (Json.str s)) :
    jStr fields k = .ok s := by
  by_cases hs : s = "" <;> simp [jStr, h, hs]

theorem jStr_of_plain {fields : List (String × Json)} {k s : String}
    (h : jGet fields k = some (Json.str s)) : jStr fields k = .ok s := by
  simp [jStr, h]

theorem jCacheControlOpt_of {fields : List (String × Json)} {k : String}
    {o : Option CacheControl} (h : jGet fields k = o.map marshalCacheControl) :
    jCacheControlOpt fields k = .ok o := by
  cases o with
  | none =>
    simp only [Option.map_none'] at h
    simp [jCacheControlOpt, h]
  | some c =>
    simp only [Option.map_some'] at h
    unfold jCacheControlOpt
    rw [h]
    simp [marshalCacheControl, unmarshalCacheControl, jStr, jGet, List.find?,
      Bind.bind, Except.bind]

theorem jImageSourceOpt_of {fields : List (String × Json)} {k : String}
    {o : Option ImageSource} (h : jGet fields k = o.map marshalImageSource) :
    jImageSourceOpt fields k = .ok o := by
  cases o with
  | none =>
    simp only [Option.map_none'] at h
    simp [jImageSourceOpt, h]
  | some s =>
    simp only [Option.map_some'] at h
    unfold jImageSourceOpt
    rw [h]
    simp [marshalImageSource, unmarshalImageSource, jStr, jGet, List.find?,
      Bind.bind, Except.bind]

theorem jAnyOpt_of {fields : List (String × Json)} {k : String} {o : Option Json}
    (h : jGet fields k = o) (ho : optJsonOk o = true) : jAnyOpt fields k = .ok o := by
  cases o with
  | none => simp [jAnyOpt, h]
  | some v =>
    cases v
    case null => simp [optJsonOk] at ho
    all_goals simp [jAnyOpt, h]

theorem jBoolOpt_of {fields : List (String × Json)} {k : String} {o : Option Bool}
    (h : jGet fields k = o.map Json.bool) : jBoolOpt fields k = .ok o := by
  cases o <;> (try simp only [Option.map_none', Option.map_some'] at h) <;>
    simp [jBoolOpt, h]

theorem jNumOpt_of {fields : List (String × Json)} {k : String} {o : Option ℚ}
    (h : jGet fields k = o.map Json.num) : jNumOpt fields k = .ok o := by
  cases o <;> (try simp only [Option.map_none', Option.map_some'] at h) <;>
    simp [jNumOpt, h]

theorem jIntOpt_of {fields : List (String × Json)} {k : String} {o : Option Int}
    (h : jGet fields k = o.map fun i => Json.num (i : ℚ)) :
    jIntOpt fields k = .ok o := by
  cases o <;> (try simp only [Option.map_none', Option.map_some'] at h) <;>
    simp [jIntOpt, h, Rat.den_intCast, Rat.num_intCast]

theorem jInt_of_plain {fields : List (String × Json)} {k : String} {i : Int}
    (h : jGet fields k = some (Json.num (i : ℚ))) : jInt fields k = .ok i := by
  simp [jInt, h, Rat.den_intCast, Rat.num_intCast]

theorem jGet_cons (k k' : String) (v : Json) (rest : List (String × Json)) :
    jGet ((k, v) :: rest) k' = if (k == k') = true then some v else jGet rest k' := by
  simp only [jGet, List.find?]
  cases h : (k == k') <;> simp [h]

theorem cbf_type (b : ContentBlock) :
    jGet (marshalContentBlockFields b) "type" = some (Json.str b.«Type») := by
  simp [marshalContentBlockFields, jGet_append, jGet_cons, jGet_single_self]

theorem cbf_text (b : ContentBlock) :
    jGet (marshalContentBlockFields b) "text" =
      if b.Text = "" then none else some (Json.str b.Text) := by
  by_cases h : b.Text = "" <;>
    simp [marshalContentBlockFields, jGet_append, jGet_cons, jGet_single_self,
      jGet_single_ne, jGet_strField_self, jGet_strField_ne, jGet_optField_self,
      jGet_optField_ne, h, jGet_nil]

theorem cbf_source (b : ContentBlock) :
    jGet (marshalContentBlockFields b) "source" =
      b.Source.map marshalImageSource := by
  cases hs : b.Source <;>
    simp [marshalContentBlockFields, jGet_append, jGet_cons, jGet_single_self,
      jGet_single_ne, jGet_strField_self, jGet_strField_ne, jGet_optField_self,
      jGet_optField_ne, hs, jGet_nil]

theorem cbf_cache_control (b : ContentBlock) :
    jGet (marshalContentBlockFields b) "cache_control" =
      b.CacheControl.map marshalCacheControl := by
  cases hx : b.CacheControl <;>
    simp [marshalContentBlockFields, jGet_append, jGet_cons, jGet_single_self,
      jGet_single_ne, jGet_strField_self, jGet_strField_ne, jGet_optField_self,
      jGet_optField_ne, hx, jGet_nil]

theorem cbf_id (b : ContentBlock) :
    jGet (marshalContentBlockFields b) "id" =
      if b.ID = "" then none else some (Json.str b.ID) := by
  by_cases h : b.ID = "" <;>
    simp [marshalContentBlockFields, jGet_append, jGet_cons, jGet_single_self,
      jGet_single_ne, jGet_strField_self, jGet_strField_ne, jGet_optField_self,
      jGet_optField_ne, h, jGet_nil]

theorem cbf_name (b : ContentBlock) :
    jGet (marshalContentBlockFields b) "name" =
      if b.Name = "" then none else some (Json.str b.Name) := by
  by_cases h : b.Name = "" <;>
    simp [marshalContentBlockFields, jGet_append, jGet_cons, jGet_single_self,
      jGet_single_ne, jGet_strField_self, jGet_strField_ne, jGet_optField_self,
      jGet_optField_ne, h, jGet_nil]

theorem cbf_input (b : ContentBlock) :
    jGet (marshalContentBlockFields b) "input" = b.Input := by
  cases hx : b.Input <;>
    simp [marshalContentBlockFields, jGet_append, jGet_cons, jGet_single_self,
      jGet_single_ne, jGet_strField_self, jGet_strField_ne, jGet_optField_self,
      jGet_optField_ne, hx, jGet_nil]

theorem cbf_tool_use_id (b : ContentBlock) :
    jGet (marshalContentBlockFields b) "tool_use_id" =
      if b.ToolUseID = "" then none else some (Json.str b.ToolUseID) := by
  by_cases h : b.ToolUseID = "" <;>
    simp [marshalContentBlockFields, jGet_append, jGet_cons, jGet_single_self,
      jGet_single_ne, jGet_strField_self, jGet_strField_ne, jGet_optField_self,
      jGet_optField_ne, h, jGet_nil]

theorem cbf_content (b : ContentBlock) :
    jGet (marshalContentBlockFields b) "content" = b.Content := by
  cases hx : b.Content <;>
    simp [marshalContentBlockFields, jGet_append, jGet_cons, jGet_single_self,
      jGet_single_ne, jGet_strField_self, jGet_strField_ne, jGet_optField_self,
      jGet_optField_ne, hx, jGet_nil]

theorem cbf_is_error (b : ContentBlock) :
    jGet (marshalContentBlockFields b) "is_error" = b.IsError.map Json.bool := by
  simp [marshalContentBlockFields, jGet_append, jGet_cons, jGet_single_self,
    jGet_single_ne, jGet_strField_self, jGet_strField_ne, jGet_optField_self,
    jGet_optField_ne, jGet_nil]

def contentBlockOk (b : ContentBlock) : Bool :=
  optJsonOk b.Input && optJsonOk b.Content

theorem unmarshalContentBlock_marshal (b : ContentBlock)
    (h : contentBlockOk b = true) :
    unmarshalContentBlock (marshalContentBlock b) = .ok b := by
  have h' := h
  simp only [contentBlockOk, Bool.and_eq_true] at h'
  obtain ⟨hin, hco⟩ := h' 
  unfold marshalContentBlock unmarshalContentBlock
  simp only [jStr_of_plain (cbf_type b), jStr_of_strField (cbf_text b),
    jImageSourceOpt_of (cbf_source b), jCacheControlOpt_of (cbf_cache_control b),
    jStr_of_strField (cbf_id b), jStr_of_strField (cbf_name b),
    jAnyOpt_of (cbf_input b) hin, jStr_of_strField (cbf_tool_use_id b),
    jAnyOpt_of (cbf_content b) hco, jBoolOpt_of (cbf_is_error b)]
  simp [Bind.bind, Except.bind]

theorem mapM_unmarshalContentBlock (l : List ContentBlock)
    (h : ∀ b ∈ l, contentBlockOk b = true) :
    (l.map marshalContentBlock).mapM unmarshalContentBlock = .ok l := by
  induction l with
  | nil => rfl
  | cons b bs ih =>
    simp only [List.map_cons, List.mapM_cons,
      unmarshalContentBlock_marshal b (h b (List.mem_cons_self b bs)),
      ih (fun x hx => h x (List.mem_cons_of_mem b hx))]
    rfl

def messageOk (m : Message) : Bool :=
  m.Content.all contentBlockOk

theorem unmarshalMessage_marshal (m : Message) (h : messageOk m = true) :
    unmarshalMessage (marshalMessage m) = .ok m := by
  unfold marshalMessage unmarshalMessage
  have hrole : jStr [("role", Json.str m.Role),
      ("content", Json.arr (m.Content.map marshalContentBlock))] "role" =
        .ok m.Role :=
    jStr_of_plain (by simp [jGet_cons])
  have hcontent : jGet [("role", Json.str m.Role),
      ("content", Json.arr (m.Content.map marshalContentBlock))] "content" =
        some (Json.arr (m.Content.map marshalContentBlock)) := by
    simp [jGet_cons]
  simp only [hrole, hcontent,
    mapM_unmarshalContentBlock m.Content (by simpa [messageOk, List.all_eq_true] using h)]
  simp [Bind.bind, Except.bind]

theorem mapM_unmarshalMessage (l : List Message)
    (h : ∀ m ∈ l, messageOk m = true) :
    (l.map marshalMessage).mapM unmarshalMessage = .ok l := by
  induction l with
  | nil => rfl
  | cons m ms ih =>
    simp only [List.map_cons, List.mapM_cons,
      unmarshalMessage_marshal m (h m (List.mem_cons_self m ms)),
      ih (fun x hx => h x (List.mem_cons_of_mem m hx))]
    rfl

def toolOk (t : ToolDefinition) : Bool :=
  optJsonOk t.InputSchema

theorem jAnyOpt_of_getD {fields : List (String × Json)} {k : String}
    {o : Option Json} (h : jGet fields k = some (o.getD .null))
    (ho : optJsonOk o = true) : jAnyOpt fields k = .ok o := by
  cases o with
  | none => simp [jAnyOpt, h]
  | some v =>
    simp only [Option.getD_some] at h
    cases v
    case null => simp [optJsonOk] at ho
    all_goals simp [jAnyOpt, h]

theorem unmarshalToolDefinition_marshal (t : ToolDefinition)
    (h : toolOk t = true) :
    unmarshalToolDefinition (marshalToolDefinition t) = .ok t := by
  unfold marshalToolDefinition unmarshalToolDefinition
  have hname : jGet ([("name", Json.str t.Name),
      ("description", Json.str t.Description),
      ("input_schema", t.InputSchema.getD Json.null)] ++
        optField "cache_control" (t.CacheControl.map marshalCacheControl)) "name" =
        some (Json.str t.Name) := by
    simp [jGet_append, jGet_cons]
  have hdesc : jGet ([("name", Json.str t.Name),
      ("description", Json.str t.Description),
      ("input_schema", t.InputSchema.getD Json.null)] ++
        optField "cache_control" (t.CacheControl.map marshalCacheControl)) "description" =
        some (Json.str t.Description) := by
    simp [jGet_append, jGet_cons]
  have hschema : jGet ([("name", Json.str t.Name),
      ("description", Json.str t.Description),
      ("input_schema", t.InputSchema.getD Json.null)] ++
        optField "cache_control" (t.CacheControl.map marshalCacheControl)) "input_schema" =
        some (t.InputSchema.getD Json.null) := by
    simp [jGet_append, jGet_cons]
  have hcc : jGet ([("name", Json.str t.Name),
      ("description", Json.str t.Description),
      ("input_schema", t.InputSchema.getD Json.null)] ++
        optField "cache_control" (t.CacheControl.map marshalCacheControl)) "cache_control" =
        t.CacheControl.map marshalCacheControl := by
    cases hx : t.CacheControl <;> simp [jGet_append, jGet_cons, jGet_optField_self, hx]
  simp only [jStr_of_plain hname, jStr_of_plain hdesc,
    jAnyOpt_of_getD hschema h, jCacheControlOpt_of hcc]
  simp [Bind.bind, Except.bind]

theorem mapM_unmarshalToolDefinition (l : List ToolDefinition)
    (h : ∀ t ∈ l, toolOk t = true) :
    (l.map marshalToolDefinition).mapM unmarshalToolDefinition = .ok l := by
  induction l with
  | nil => rfl
  | cons t ts ih =>
    simp only [List.map_cons, List.mapM_cons,
      unmarshalToolDefinition_marshal t (h t (List.mem_cons_self t ts)),
      ih (fun x hx => h x (List.mem_cons_of_mem t hx))]
    rfl

theorem mapM_strings (l : List String) :
    (l.map Json.str).mapM (fun x => match x with
      | Json.str s => Except.ok s
      | _ => Except.error "stop_sequences: expected string") = .ok l := by
  induction l with
  | nil => rfl
  | cons s ss ih =>
    simp only [List.map_cons, List.mapM_cons, ih]
    rfl

theorem jGet_ite (c : Prop) [Decidable c] (l₁ l₂ : List (String × Json))
    (k : String) :
    jGet (if c then l₁ else l₂) k = if c then jGet l₁ k else jGet l₂ k :=
  apply_ite (fun l => jGet l k) c l₁ l₂

theorem rqf_model (r : AnthropicRequest) :
    jGet (marshalRequestFields r) "model" = some (Json.str r.Model) := by
  simp [marshalRequestFields, jGet_append, jGet_cons]

theorem rqf_max_tokens (r : AnthropicRequest) :
    jGet (marshalRequestFields r) "max_tokens" =
      some (Json.num (r.MaxTokens : ℚ)) := by
  simp [marshalRequestFields, jGet_append, jGet_cons]

theorem rqf_messages (r : AnthropicRequest) :
    jGet (marshalRequestFields r) "messages" =
      some (Json.arr (r.Messages.map marshalMessage)) := by
  simp [marshalRequestFields, jGet_append, jGet_cons]

theorem rqf_system (r : AnthropicRequest) :
    jGet (marshalRequestFields r) "system" =
      if r.SystemBlocks.isEmpty then
        (if r.System = "" then none else some (Json.str r.System))
      else some (Json.arr (r.SystemBlocks.map marshalContentBlock)) := by
  by_cases hsb : r.SystemBlocks.isEmpty <;> by_cases hs : r.System = "" <;>
    simp [marshalRequestFields, jGet_append, jGet_cons, jGet_ite, jGet_nil,
      jGet_strField_self, jGet_strField_ne, jGet_optField_self, jGet_optField_ne,
      jGet_single_self, jGet_single_ne, hsb, hs]

theorem rqf_tools (r : AnthropicRequest) :
    jGet (marshalRequestFields r) "tools" =
      if r.Tools.isEmpty then none
      else some (Json.arr (r.Tools.map marshalToolDefinition)) := by
  by_cases ht : r.Tools.isEmpty <;>
    simp [marshalRequestFields, jGet_append, jGet_cons, jGet_ite, jGet_nil,
      jGet_strField_self, jGet_strField_ne, jGet_optField_self, jGet_optField_ne,
      jGet_single_self, jGet_single_ne, ht, ite_self]

theorem rqf_temperature (r : AnthropicRequest) :
    jGet (marshalRequestFields r) "temperature" =
      r.Temperature.map Json.num := by
  cases hx : r.Temperature <;>
    simp [marshalRequestFields, jGet_append, jGet_cons, jGet_ite, jGet_nil,
      jGet_strField_self, jGet_strField_ne, jGet_optField_self, jGet_optField_ne,
      jGet_single_self, jGet_single_ne, hx, ite_self]

theorem rqf_top_p (r : AnthropicRequest) :
    jGet (marshalRequestFields r) "top_p" = r.TopP.map Json.num := by
  cases hx : r.TopP <;>
    simp [marshalRequestFields, jGet_append, jGet_cons, jGet_ite, jGet_nil,
      jGet_strField_self, jGet_strField_ne, jGet_optField_self, jGet_optField_ne,
      jGet_single_self, jGet_single_ne, hx, ite_self]

theorem rqf_top_k (r : AnthropicRequest) :
    jGet (marshalRequestFields r) "top_k" =
      r.TopK.map (fun i => Json.num (i : ℚ)) := by
  cases hx : r.TopK <;>
    simp [marshalRequestFields, jGet_append, jGet_cons, jGet_ite, jGet_nil,
      jGet_strField_self, jGet_strField_ne, jGet_optField_self, jGet_optField_ne,
      jGet_single_self, jGet_single_ne, hx, ite_self]

theorem rqf_stream (r : AnthropicRequest) :
    jGet (marshalRequestFields r) "stream" = r.Stream.map Json.bool := by
  cases hx : r.Stream <;>
    simp [marshalRequestFields, jGet_append, jGet_cons, jGet_ite, jGet_nil,
      jGet_strField_self, jGet_strField_ne, jGet_optField_self, jGet_optField_ne,
      jGet_single_self, jGet_single_ne, hx, ite_self]

theorem rqf_stop_sequences (r : AnthropicRequest) :
    jGet (marshalRequestFields r) "stop_sequences" =
      if r.StopSequences.isEmpty then none
      else some (Json.arr (r.StopSequences.map Json.str)) := by
  by_cases hx : r.StopSequences.isEmpty <;>
    simp [marshalRequestFields, jGet_append, jGet_cons, jGet_ite, jGet_nil,
      jGet_strField_self, jGet_strField_ne, jGet_optField_self, jGet_optField_ne,
      jGet_single_self, jGet_single_ne, hx, ite_self]

theorem jMessages_of {fields : List (String × Json)} {k : String}
    {ms : List Message}
    (h : jGet fields k = some (Json.arr (ms.map marshalMessage)))
    (hok : ∀ m ∈ ms, messageOk m = true) :
    jMessages fields k = .ok ms := by
  unfold jMessages
  rw [h]
  exact mapM_unmarshalMessage ms hok

theorem jTools_of {fields : List (String × Json)} {k : String}
    {ts : List ToolDefinition}
    (h : jGet fields k =
      if ts.isEmpty then none else some (Json.arr (ts.map marshalToolDefinition)))
    (hok : ∀ t ∈ ts, toolOk t = true) :
    jTools fields k = .ok ts := by
  by_cases he : ts.isEmpty
  · unfold jTools
    rw [h, if_pos he]
    rw [List.isEmpty_iff.1 he]
  · unfold jTools
    rw [h, if_neg he]
    exact mapM_unmarshalToolDefinition ts hok

theorem jStrings_of {fields : List (String × Json)} {k : String}
    {ss : List String}
    (h : jGet fields k =
      if ss.isEmpty then none else some (Json.arr (ss.map Json.str))) :
    jStrings fields k = .ok ss := by
  by_cases he : ss.isEmpty
  · unfold jStrings
    rw [h, if_pos he]
    rw [List.isEmpty_iff.1 he]
  · unfold jStrings
    rw [h, if_neg he]
    exact mapM_strings ss

def validRequest (r : AnthropicRequest) : Bool :=
  (r.System == "" || r.SystemBlocks.isEmpty) &&
    r.Messages.all messageOk &&
    r.SystemBlocks.all contentBlockOk &&
    r.Tools.all toolOk

theorem unmarshalRequest_marshal (r : AnthropicRequest)
    (h : validRequest r = true) :
    unmarshalRequest (marshalRequest r) = .ok r := by
  have h' := h
  simp only [validRequest, Bool.and_eq_true, Bool.or_eq_true, beq_iff_eq,
    List.all_eq_true] at h'
  obtain ⟨⟨⟨hsys, hmsgs⟩, hsb⟩, htools⟩ := h'
  have hrw := rqf_system r
  unfold marshalRequest unmarshalRequest
  simp only [jStr_of_plain (rqf_model r), jInt_of_plain (rqf_max_tokens r),
    jMessages_of (rqf_messages r) hmsgs, jTools_of (rqf_tools r) htools,
    jNumOpt_of (rqf_temperature r), jNumOpt_of (rqf_top_p r),
    jIntOpt_of (rqf_top_k r), jBoolOpt_of (rqf_stream r),
    jStrings_of (rqf_stop_sequences r), hrw]
  obtain ⟨model, maxTokens, messages, system, sysBlocks, tools, temp, topP,
    topK, stream, stops⟩ := r
  simp only at hsys hmsgs hsb htools ⊢
  by_cases hsbe : sysBlocks.isEmpty
  · obtain rfl : sysBlocks = [] := List.isEmpty_iff.1 hsbe
    by_cases hse : system = ""
    · subst hse
      simp [Bind.bind, Except.bind]
    · simp only [List.isEmpty_nil, if_true, if_neg hse]
      simp [Bind.bind, Except.bind]
  · have hse : system = "" := by
      rcases hsys with hse | hemp
      · exact hse
      · exact absurd hemp hsbe
    subst hse
    simp only [hsbe, if_false]
    have hm := mapM_unmarshalContentBlock sysBlocks hsb
    unfold List.mapM at hm
    simp [Bind.bind, Except.bind, hm]

/-- C8: for every structurally valid request model (exactly one arm of the
polymorphic system field active, message content as block arrays, decoded
`interface{}` payloads not the JSON null), parsing the serialization
returns the request itself on all fields — in particular every cache mark
attached by the planner to a system block, tool definition or content
block is present again after serialize-then-parse. -/
theorem claim_C8_serialize_parse_roundtrip (r : AnthropicRequest)
    (h : validRequest r = true) :
    unmarshalRequest (marshalRequest r) = .ok r :=
  unmarshalRequest_marshal r h

/-- A valid request carrying cache marks on a system block, a tool and a
message text block, plus the optional scalar fields. -/
def c8Request : AnthropicRequest :=
  ⟨"claude-3-5-sonnet-20241022", 100,
   [⟨"user", [⟨"text", "Hello", none, some ⟨"ephemeral", "5m"⟩, "", "", none,
     "", none, none⟩]⟩],
   "",
   [⟨"text", "You are helpful.", none, some ⟨"ephemeral", "1h"⟩, "", "", none,
     "", none, none⟩],
   [⟨"calc", "A calculator", some (Json.obj [("type", Json.str "object")]),
     some ⟨"ephemeral", "1h"⟩⟩],
   some 1, none, some 3, some true, ["END"]⟩

/-- Witness for C8 at a concrete marked request. -/
theorem claim_C8_serialize_parse_roundtrip_witness :
    validRequest c8Request = true ∧
      unmarshalRequest (marshalRequest c8Request) = .ok c8Request :=
  ⟨by decide, claim_C8_serialize_parse_roundtrip c8Request (by decide)⟩
